import Mathlib

/-!
Shallow embedding of the ARC1 grid pattern/transformation inference engine
(`src/grid_ops.py`, `src/transform_analysis.py`, `src/transform_predictor.py`,
`src/pattern_testing.py`, `src/recipe_testing/data_handlers.py`).

Grids are numpy 2-D integer arrays in the source; here a grid is a list of
rows of integers.  Cell values are `Int` (values 0-9 in practice, 0 is
background).  Recursive flood fill is embedded with a fuel parameter
(`height*width + 1`, which always suffices since every recursive level that
passes the guard inserts a fresh cell into `seen`).
-/

namespace ARC1

/-- A grid: list of rows of small integers (numpy 2-D int array in the source). -/
abbrev Grid := List (List Int)

/-- Number of rows (`grid.shape[0]`). -/
def height (g : Grid) : Nat := g.length

/-- Number of columns (`grid.shape[1]`, the length of the first row). -/
def width (g : Grid) : Nat := (g.headD []).length

/-- Cell access `grid[r, c]`; used only at in-bounds nonnegative indices. -/
def gget (g : Grid) (r c : Int) : Int :=
  if 0 ≤ r ∧ 0 ≤ c then (g.getD r.toNat []).getD c.toNat 0 else 0

/-- In-bounds test mirroring the flood-fill guard `0 <= r < shape[0]`, `0 <= c < shape[1]`. -/
def inBounds (g : Grid) (p : Int × Int) : Prop :=
  0 ≤ p.1 ∧ p.1 < (height g : Int) ∧ 0 ≤ p.2 ∧ p.2 < (width g : Int)

instance (g : Grid) (p : Int × Int) : Decidable (inBounds g p) := by
  unfold inBounds; infer_instance

/-- Row-major list of all cell coordinates of the grid. -/
def allCells (g : Grid) : List (Int × Int) :=
  (List.range (height g)).flatMap fun (r : Nat) =>
    (List.range (width g)).map fun (c : Nat) => ((r : Int), (c : Int))

/-- Well-formed grid: non-empty with all rows of equal length (the numpy
array invariant; spec section 3). -/
def WellFormed (g : Grid) : Prop :=
  g ≠ [] ∧ ∀ row ∈ g, row.length = width g

instance (g : Grid) : Decidable (WellFormed g) := by
  unfold WellFormed; infer_instance

/-- Insertion of an integer into a sorted list (ascending). -/
def insertSorted (x : Int) : List Int → List Int
  | [] => [x]
  | y :: ys => if x ≤ y then x :: y :: ys else y :: insertSorted x ys

/-- Ascending sort of a list of integers. -/
def sortInts (l : List Int) : List Int := l.foldr insertSorted []

/-- Sorted list of distinct values (`np.unique`). -/
def uniqueSorted (l : List Int) : List Int := sortInts l.dedup

/-- The distinct values occurring in a grid, ascending (`np.unique` /
iteration order of `GridOperations.count_values`). -/
def distinctValues (g : Grid) : List Int := uniqueSorted g.flatten

/-- Row-major positions of the cells holding value `v`
(`np.argwhere(grid == v)` / the boolean mask `grid == v`). -/
def maskPositions (g : Grid) (v : Int) : List (Int × Int) :=
  (allCells g).filter fun p => gget g p.1 p.2 = v

/-- Output values at the positions of input value `v`
(`output_grid[input_grid == in_val]`, row-major). -/
def outValsOf (gin gout : Grid) (v : Int) : List Int :=
  (maskPositions gin v).map fun p => gget gout p.1 p.2

/-- Position category of a coordinate (`TransformationAnalyzer._get_position_type`). -/
inductive PosType
  | corner
  | edge
  | interior
deriving DecidableEq, Repr

/-- Embeds `_get_position_type(pos, shape)` with `shape = (h, w)`. -/
def get_position_type (p : Int × Int) (h w : Nat) : PosType :=
  if (p.1 = 0 ∨ p.1 = (h : Int) - 1) ∧ (p.2 = 0 ∨ p.2 = (w : Int) - 1) then .corner
  else if (p.1 = 0 ∨ p.1 = (h : Int) - 1) ∨ (p.2 = 0 ∨ p.2 = (w : Int) - 1) then .edge
  else .interior

/-- The `position_based` dictionary of `analyze_value_mappings`: per position
category, the list of output values in position order.  The Python dict has
at most the three keys below, with an absent key identified with the empty
list; this canonical record realizes Python dict equality. -/
structure PosVals where
  corner : List Int
  edge : List Int
  interior : List Int
deriving DecidableEq, Repr

/-- Builds `position_based` for input value `v` of the pair. -/
def positionBased (gin gout : Grid) (v : Int) : PosVals :=
  let pvs := (maskPositions gin v).map fun p =>
    (get_position_type p (height gin) (width gin), gget gout p.1 p.2)
  { corner := (pvs.filter fun q => q.1 = .corner).map Prod.snd
    edge := (pvs.filter fun q => q.1 = .edge).map Prod.snd
    interior := (pvs.filter fun q => q.1 = .interior).map Prod.snd }

/-- The `conditional` table: per position category, an optional single output
value (Python dict with at most three keys, canonicalized as a record). -/
structure CondTable where
  corner : Option Int
  edge : Option Int
  interior : Option Int
deriving DecidableEq, Repr

/-- The empty `conditional` dict. -/
def emptyCT : CondTable := ⟨none, none, none⟩

/-- One entry of the `conditional` table: `values[0]` when
`len(set(values)) == 1`, absent otherwise (also absent for a category that
does not occur, i.e. an empty list). -/
def condEntry (l : List Int) : Option Int :=
  match l.dedup with
  | [x] => some x
  | _ => none

/-- The `conditional` table computed from `position_based`. -/
def condOf (pb : PosVals) : CondTable :=
  ⟨condEntry pb.corner, condEntry pb.edge, condEntry pb.interior⟩

/-- A `ValueMapping` entry (`mappings[in_val]` in `analyze_value_mappings`). -/
inductive Mapping
  | direct (to' : Int)
  | conditional (conditions : CondTable)
  | complex (position_values : PosVals)
deriving DecidableEq, Repr

/-- The mapping computed for one input value `v` (the body of the loop of
`analyze_value_mappings`); `none` when no entry is emitted for `v`. -/
def valueMappingFor (gin gout : Grid) (v : Int) : Option (Int × Mapping) :=
  if v = 0 then none
  else
    match uniqueSorted (outValsOf gin gout v) with
    | [] => none
    | [u] => some (v, Mapping.direct u)
    | _ :: _ :: _ =>
      let pb := positionBased gin gout v
      let ct := condOf pb
      if ct ≠ emptyCT then some (v, Mapping.conditional ct)
      else some (v, Mapping.complex pb)

/-- `TransformationAnalyzer.analyze_value_mappings`: association list from
input value to its mapping, keys in ascending value order (`np.unique`). -/
def analyze_value_mappings (gin gout : Grid) : List (Int × Mapping) :=
  (distinctValues gin).filterMap (valueMappingFor gin gout)

/-- An extracted object (`GridOperations.get_objects` dict): seed value and
the flood-fill coordinate list.  Bounding box, size, dimensions and center
are stored in the source dict but fully determined by `coords`; they are
embedded as the projections below. -/
structure Obj where
  value : Int
  coords : List (Int × Int)
deriving DecidableEq, Repr

/-- `min_r` of an object (minimum row of its coordinates). -/
def Obj.minR (o : Obj) : Int := (o.coords.map Prod.fst).foldr min (o.coords.headD (0, 0)).1

/-- `max_r` of an object. -/
def Obj.maxR (o : Obj) : Int := (o.coords.map Prod.fst).foldr max (o.coords.headD (0, 0)).1

/-- `min_c` of an object. -/
def Obj.minC (o : Obj) : Int := (o.coords.map Prod.snd).foldr min (o.coords.headD (0, 0)).2

/-- `max_c` of an object. -/
def Obj.maxC (o : Obj) : Int := (o.coords.map Prod.snd).foldr max (o.coords.headD (0, 0)).2

/-- `size` of an object (cell count). -/
def Obj.size (o : Obj) : Nat := o.coords.length

/-- `dimensions` of an object: bounding-box height and width. -/
def Obj.dims (o : Obj) : Int × Int :=
  (o.maxR - o.minR + 1, o.maxC - o.minC + 1)

/-- `center` of an object: `((max_r+min_r)/2, (max_c+min_c)/2)` as exact
rationals (floats in the source; halves of integers are exactly
representable in float64, so rational arithmetic is faithful). -/
def Obj.center (o : Obj) : ℚ × ℚ :=
  (((o.maxR + o.minR : Int) : ℚ) / 2, ((o.maxC + o.minC : Int) : ℚ) / 2)

/-- Fuel bound for the flood-fill recursion; `height*width + 1` always
suffices because each guard-passing level inserts a fresh in-bounds cell. -/
def gridFuel (g : Grid) : Nat := height g * width g + 1

/-- The recursive `flood_fill(r, c, value)` of `GridOperations.get_objects`.
Returns the coordinate list and the updated `seen` set (the Python closure
mutates a shared `seen`; here it is threaded through the four neighbor
calls in source order: down, up, right, left). -/
def floodFill (g : Grid) (v : Int) : Nat → Int × Int → Finset (Int × Int) →
    List (Int × Int) × Finset (Int × Int)
  | 0, _, seen => ([], seen)
  | fuel + 1, p, seen =>
    if inBounds g p ∧ gget g p.1 p.2 = v ∧ p ∉ seen then
      let s0 := insert p seen
      let r1 := floodFill g v fuel (p.1 + 1, p.2) s0
      let r2 := floodFill g v fuel (p.1 - 1, p.2) r1.2
      let r3 := floodFill g v fuel (p.1, p.2 + 1) r2.2
      let r4 := floodFill g v fuel (p.1, p.2 - 1) r3.2
      (p :: (r1.1 ++ r2.1 ++ r3.1 ++ r4.1), r4.2)
    else ([], seen)

/-- One step of the row-major scan of `get_objects`: for an unvisited
non-zero cell, flood fill and append the object when the coordinate list is
non-empty. -/
def objStep (g : Grid) (acc : Finset (Int × Int) × List Obj) (p : Int × Int) :
    Finset (Int × Int) × List Obj :=
  if p ∉ acc.1 ∧ gget g p.1 p.2 ≠ 0 then
    let r := floodFill g (gget g p.1 p.2) (gridFuel g) p acc.1
    if r.1 ≠ [] then (r.2, acc.2 ++ [⟨gget g p.1 p.2, r.1⟩]) else (r.2, acc.2)
  else acc

/-- `GridOperations.get_objects`: connected components of same-valued
non-zero cells, in seed scan order. -/
def get_objects (g : Grid) : List Obj :=
  ((allCells g).foldl (objStep g) (∅, [])).2

/-- Inclusive integer range `[lo..hi]` as a list. -/
def rangeInt (lo hi : Int) : List Int :=
  (List.range (hi + 1 - lo).toNat).map fun (i : Nat) => lo + (i : Int)

/-- `GridOperations.get_object_grid`: the tight bounding-box slice of the
grid with all non-member cells zeroed out. -/
def get_object_grid (g : Grid) (o : Obj) : Grid :=
  (rangeInt o.minR o.maxR).map fun r =>
    (rangeInt o.minC o.maxC).map fun c =>
      if (r, c) ∈ o.coords then gget g r c else 0

/-- `np.rot90(g)` (one 90-degree counterclockwise rotation):
`result[i][j] = g[j][W-1-i]`. -/
def rot90 (g : Grid) : Grid :=
  (List.range (width g)).map fun (i : Nat) =>
    (List.range (height g)).map fun (j : Nat) =>
      gget g (j : Int) ((width g : Int) - 1 - (i : Int))

/-- `np.rot90(g, k)`. -/
def rotk : Nat → Grid → Grid
  | 0, g => g
  | k + 1, g => rotk k (rot90 g)

/-- Flip axes, named as in `TransformationAnalyzer` / the predictor:
`horizontal` is numpy axis 0 (reverse the rows), `vertical` is axis 1
(reverse within each row). -/
inductive Axis
  | horizontal
  | vertical
deriving DecidableEq, Repr

/-- `np.flip(g, axis)`. -/
def flipG (ax : Axis) (g : Grid) : Grid :=
  match ax with
  | .horizontal => g.reverse
  | .vertical => g.map List.reverse

/-- `np.kron(g, np.ones((f, f)))`: every cell becomes an `f × f` block (the
source produces a float array; values are preserved exactly). -/
def kron (g : Grid) (f : Nat) : Grid :=
  g.flatMap fun row =>
    List.replicate f (row.flatMap fun x => List.replicate f x)

/-- `grid.T`: rows of the transpose are the columns of the grid. -/
def transposeG (g : Grid) : Grid :=
  (List.range (width g)).map fun (c : Nat) =>
    (List.range (height g)).map fun (r : Nat) => gget g (r : Int) (c : Int)

/-- Boolean non-zero mask of a grid (`grid != 0`). -/
def maskOf (g : Grid) : List (List Bool) :=
  g.map fun row => row.map fun x => decide (x ≠ 0)

/-- An object-level or global transform tag (`transform['type']` dicts). -/
inductive OT
  | none
  | value_change (frm to' : Int)
  | scale (factor : Int)
  | rotation (degrees : Int)
  | flip (axis : Axis)
  | complex
deriving DecidableEq, Repr

/-- `np.unique(o[o != 0])`: sorted distinct non-zero values of a grid. -/
def uniqNonzero (o : Grid) : List Int :=
  uniqueSorted (o.flatten.filter fun x => x ≠ 0)

/-- `TransformationAnalyzer._find_object_transform` on two object subgrids.
Branch order as in the source: exact equality, value change, dimension-only
scaling, rotation masks, flip masks, else complex. -/
def find_object_transform (o1 o2 : Grid) : OT :=
  let h1 := height o1; let w1 := width o1
  let h2 := height o2; let w2 := width o2
  if h1 = h2 ∧ w1 = w2 ∧ o1 = o2 then .none
  else if h1 = h2 ∧ w1 = w2 ∧ (uniqNonzero o1).length = 1 ∧ (uniqNonzero o2).length = 1 then
    .value_change ((uniqNonzero o1).headD 0) ((uniqNonzero o2).headD 0)
  else if h2 % h1 = 0 ∧ w2 % w1 = 0 ∧ h2 / h1 = w2 / w1 then .scale (h2 / h1)
  else if maskOf (rotk 1 o1) = maskOf o2 then .rotation 90
  else if maskOf (rotk 2 o1) = maskOf o2 then .rotation 180
  else if maskOf (rotk 3 o1) = maskOf o2 then .rotation 270
  else if maskOf (flipG .horizontal o1) = maskOf o2 then .flip .horizontal
  else if maskOf (flipG .vertical o1) = maskOf o2 then .flip .vertical
  else .complex

/-- One entry of an object mapping's `matches` list. -/
structure ObjMatch where
  output_object : Obj
  transform : OT
deriving DecidableEq, Repr

/-- One entry of `object_mappings`. -/
structure ObjMapping where
  input_object : Obj
  matches' : List ObjMatch
deriving DecidableEq, Repr

/-- The `analyze_object_transformations` result dict. -/
structure ObjTransforms where
  object_count_change : Int
  object_mappings : List ObjMapping
deriving DecidableEq, Repr

/-- `TransformationAnalyzer.analyze_object_transformations`. -/
def analyze_object_transformations (gin gout : Grid) : ObjTransforms :=
  let inObjs := get_objects gin
  let outObjs := get_objects gout
  { object_count_change := (outObjs.length : Int) - (inObjs.length : Int)
    object_mappings := inObjs.filterMap fun io =>
      let ig := get_object_grid gin io
      let ms := outObjs.filterMap fun oo =>
        let t := find_object_transform ig (get_object_grid gout oo)
        if t ≠ OT.none then some ⟨oo, t⟩ else none
      if ms ≠ [] then some ⟨io, ms⟩ else none }

/-- A global (whole-grid) transform hypothesis. -/
inductive GT
  | none
  | rotation (degrees : Int)
  | flip (axis : Axis)
  | scale (factor : Int)
deriving DecidableEq, Repr

/-- `TransformationAnalyzer._find_global_transform`.  When the shapes are
equal it checks rotation then flip equality of the full grids; in every
case it then falls through to the scaling check, which only compares
dimension ratios (never content).  Source precondition: `grid1` is
non-empty (otherwise Python divides by zero); `%` and `/` below are
Nat operations agreeing with Python on positive divisors. -/
def find_global_transform (g1 g2 : Grid) : GT :=
  let h1 := height g1; let w1 := width g1
  let h2 := height g2; let w2 := width g2
  let sameShape := h1 = h2 ∧ w1 = w2
  if sameShape ∧ rotk 1 g1 = g2 then .rotation 90
  else if sameShape ∧ rotk 2 g1 = g2 then .rotation 180
  else if sameShape ∧ rotk 3 g1 = g2 then .rotation 270
  else if sameShape ∧ flipG .horizontal g1 = g2 then .flip .horizontal
  else if sameShape ∧ flipG .vertical g1 = g2 then .flip .vertical
  else if h2 % h1 = 0 ∧ w2 % w1 = 0 ∧ h2 / h1 = w2 / w1 then .scale (h2 / h1)
  else .none

/-- A relative position between two object centers (`_get_relative_position`).
The source dict also stores `distance` and `angle`; both are deterministic
functions of `(dx, dy)`, so the dict equality tests of the source coincide
with equality of this record. -/
structure RelPos where
  dx : ℚ
  dy : ℚ
deriving DecidableEq, Repr

/-- `TransformationAnalyzer._get_relative_position`. -/
def get_relative_position (o1 o2 : Obj) : RelPos :=
  ⟨(o2.center).2 - (o1.center).2, (o2.center).1 - (o1.center).1⟩

/-- Attribute-match score of `_find_matching_object`. -/
def matchScore (a b : Obj) : Nat :=
  (if a.value = b.value then 1 else 0) +
  (if a.size = b.size then 1 else 0) +
  (if a.dims = b.dims then 1 else 0)

/-- `TransformationAnalyzer._find_matching_object`: best strictly-positive
score, first-encountered tie-break. -/
def find_matching_object (o : Obj) (objs : List Obj) : Option Obj :=
  (objs.foldl
    (fun best other =>
      if best.2 < matchScore o other then (some other, matchScore o other) else best)
    ((none : Option Obj), 0)).1

/-- One recorded relative-position change. -/
structure RelChange where
  objects : Int × Int
  frm : RelPos
  to' : RelPos
deriving DecidableEq, Repr

/-- The `analyze_spatial_transformations` result dict. -/
structure SpatialTransforms where
  global_transform : GT
  relative_positions : List RelChange
deriving DecidableEq, Repr

/-- Ordered pairs `(l[i], l[j])` with `i < j`, in source iteration order. -/
def ordPairs {α : Type} : List α → List (α × α)
  | [] => []
  | x :: xs => (xs.map fun y => (x, y)) ++ ordPairs xs

/-- `TransformationAnalyzer.analyze_spatial_transformations`. -/
def analyze_spatial_transformations (gin gout : Grid) : SpatialTransforms :=
  let inObjs := get_objects gin
  let outObjs := get_objects gout
  { global_transform := find_global_transform gin gout
    relative_positions :=
      if 1 < inObjs.length ∧ inObjs.length = outObjs.length then
        (ordPairs inObjs).filterMap fun q =>
          let inRel := get_relative_position q.1 q.2
          match find_matching_object q.1 outObjs, find_matching_object q.2 outObjs with
          | some u1, some u2 =>
            let outRel := get_relative_position u1 u2
            if inRel ≠ outRel then some ⟨(q.1.value, q.2.value), inRel, outRel⟩ else none
          | _, _ => none
      else [] }

/-- One per-pair transformation analysis (the dict built in
`TransformationPredictor.predict_output`). -/
structure Analysis where
  value_mappings : List (Int × Mapping)
  object_transforms : ObjTransforms
  spatial_transforms : SpatialTransforms
deriving DecidableEq, Repr

/-- The full per-pair analysis of `predict_output`. -/
def analyze (gin gout : Grid) : Analysis :=
  ⟨analyze_value_mappings gin gout,
   analyze_object_transformations gin gout,
   analyze_spatial_transformations gin gout⟩

/-- The non-empty result dict of `_find_consistent_transforms`.
`object_count_change` and `global_transform` are `Option` because the source
sets those keys only when all training pairs agree; `mappings` entries hold
`(input_value, transform)`. -/
structure Consistent where
  value_mappings : List (Int × Mapping)
  object_count_change : Option Int
  mappings : List (Int × OT)
  global_transform : Option GT
  relative_positions : List RelChange
deriving DecidableEq, Repr

/-- Body of `_find_consistent_transforms` with `t0 = transforms[0]` and
`rest = transforms[1:]`. -/
def consistentOf (t0 : Analysis) (rest : List Analysis) : Consistent :=
  { value_mappings :=
      t0.value_mappings.filter fun vm =>
        rest.all fun t => decide (t.value_mappings.lookup vm.1 = some vm.2)
    object_count_change :=
      if rest.all fun t =>
          decide (t.object_transforms.object_count_change =
            t0.object_transforms.object_count_change)
      then some t0.object_transforms.object_count_change else none
    mappings :=
      t0.object_transforms.object_mappings.filterMap fun mp =>
        match mp.matches' with
        | [m] =>
          if m.transform ≠ OT.complex ∧
              (rest.all fun t =>
                t.object_transforms.object_mappings.any fun m2 =>
                  match m2.matches' with
                  | [mm] => decide (mm.transform = m.transform)
                  | _ => false)
          then some (mp.input_object.value, m.transform) else none
        | _ => none
    global_transform :=
      if rest.all fun t =>
          decide (t.spatial_transforms.global_transform =
            t0.spatial_transforms.global_transform)
      then some t0.spatial_transforms.global_transform else none
    relative_positions :=
      t0.spatial_transforms.relative_positions.filter fun rc =>
        rest.all fun t =>
          t.spatial_transforms.relative_positions.any fun oc =>
            decide (oc.objects = rc.objects ∧ oc.frm = rc.frm ∧ oc.to' = rc.to') }

/-- `TransformationPredictor._find_consistent_transforms`; `none` embeds the
empty dict returned for an empty list of analyses. -/
def find_consistent_transforms : List Analysis → Option Consistent
  | [] => none
  | t0 :: rest => some (consistentOf t0 rest)

/-- The global-transform step of `_apply_transforms` (`np.rot90` /
`np.flip` / `np.kron` on the whole prediction). -/
def applyGlobal (p : Grid) (gt : GT) : Grid :=
  match gt with
  | .rotation d => rotk (d / 90).toNat p
  | .flip ax => flipG ax p
  | .scale f => kron p f.toNat
  | .none => p

/-- Application of one value mapping: the mask `prediction == val` is taken
on the current prediction; `direct` rewrites every masked cell, `conditional`
rewrites each masked cell whose position category (computed against the
current shape) is in the table; the position-category masks are pairwise
disjoint, so the sequential dict iteration of the source equals this single
pass.  `complex` mappings have no branch in the source and change nothing. -/
def applyMapping (q : Grid) (v : Int) (m : Mapping) : Grid :=
  match m with
  | .direct t =>
    q.map fun row => row.map fun x => if x = v then t else x
  | .conditional ct =>
    (List.range (height q)).map fun (r : Nat) =>
      (List.range (width q)).map fun (c : Nat) =>
        let x := gget q (r : Int) (c : Int)
        if x = v then
          match get_position_type ((r : Int), (c : Int)) (height q) (width q) with
          | .corner => ct.corner.getD x
          | .edge => ct.edge.getD x
          | .interior => ct.interior.getD x
        else x
  | .complex _ => q

/-- The value-mapping step of `_apply_transforms`, in dict order. -/
def applyValueMappings (p : Grid) (vms : List (Int × Mapping)) : Grid :=
  vms.foldl (fun q vm => applyMapping q vm.1 vm.2) p

/-- Writes subgrid `sub` into `q` with top-left corner `(r0, c0)`. -/
def setRegion (q : Grid) (r0 c0 : Int) (sub : Grid) : Grid :=
  (List.range (height q)).map fun (r : Nat) =>
    (List.range (width q)).map fun (c : Nat) =>
      if 0 ≤ (r : Int) - r0 ∧ (r : Int) - r0 < (height sub : Int) ∧
         0 ≤ (c : Int) - c0 ∧ (c : Int) - c0 < (width sub : Int) then
        gget sub ((r : Int) - r0) ((c : Int) - c0)
      else gget q (r : Int) (c : Int)

/-- Application of one object-transform mapping to one object inside the
object step of `_apply_transforms`: when the input value matches, the
object's masked subgrid is read from the current prediction, transformed,
and written back over the bounding box only if the dimensions still match. -/
def applyObjMapping (q : Grid) (obj : Obj) (iv : Int) (t : OT) : Grid :=
  if iv = obj.value then
    let og := get_object_grid q obj
    let og' :=
      match t with
      | .value_change _ t' => og.map fun row => row.map fun x => if x ≠ 0 then t' else x
      | .scale f => kron og f.toNat
      | .rotation d => rotk (d / 90).toNat og
      | .flip ax => flipG ax og
      | _ => og
    if (height og' : Int) = obj.maxR + 1 - obj.minR ∧
       (width og' : Int) = obj.maxC + 1 - obj.minC then
      setRegion q obj.minR obj.minC og'
    else q
  else q

/-- The object step of `_apply_transforms`: objects are extracted once from
the current prediction, then each surviving mapping is applied in turn
(the source's inner loop does not break after a match). -/
def applyObjects (p : Grid) (maps : List (Int × OT)) : Grid :=
  (get_objects p).foldl
    (fun q obj => maps.foldl (fun q2 mp => applyObjMapping q2 obj mp.1 mp.2) q) p

/-- Row-major positions of cells equal to `v` (`np.argwhere(p == v)`). -/
def cellsWithValue (p : Grid) (v : Int) : List (Int × Int) :=
  (allCells p).filter fun q => gget p q.1 q.2 = v

/-- Mean position (`np.mean(np.argwhere(mask), axis=0)`) as exact rationals. -/
def meanPos (l : List (Int × Int)) : ℚ × ℚ :=
  (((l.map Prod.fst).sum : Int) / (l.length : ℚ), ((l.map Prod.snd).sum : Int) / (l.length : ℚ))

/-- One relative-position step of `_apply_transforms`.  When a translation
is actually needed and some translated cell stays in bounds, the source
adds a float displacement vector to the integer index array and indexes
with the resulting float array, which numpy rejects with an `IndexError`;
that failure is embedded as `Except.error`.  Otherwise the prediction is
returned unchanged. -/
def applyRel (p : Grid) (rc : RelChange) : Except String Grid :=
  let m1 := cellsWithValue p rc.objects.1
  let m2 := cellsWithValue p rc.objects.2
  if m1 ≠ [] ∧ m2 ≠ [] then
    let c1 := meanPos m1
    let c2 := meanPos m2
    let cur : RelPos := ⟨c2.2 - c1.2, c2.1 - c1.1⟩
    if cur ≠ rc.to' then
      let ddy := rc.to'.dy - cur.dy
      let ddx := rc.to'.dx - cur.dx
      let newPos := m2.map fun q => ((q.1 : ℚ) + ddy, (q.2 : ℚ) + ddx)
      let valid := newPos.filter fun q =>
        0 ≤ q.1 ∧ q.1 < (height p : ℚ) ∧ 0 ≤ q.2 ∧ q.2 < (width p : ℚ)
      if valid ≠ [] then
        Except.error "IndexError: arrays used as indices must be of integer type"
      else Except.ok p
    else Except.ok p
  else Except.ok p

/-- The relative-position step of `_apply_transforms`. -/
def applyRels (p : Grid) (rels : List RelChange) : Except String Grid :=
  rels.foldlM applyRel p

/-- `TransformationPredictor._apply_transforms` on a non-empty consistent
dict: global transform, then value mappings, then object transforms, then
relative-position changes.  The missing `global_transform` key falls back
to `{'type': 'none'}` via `dict.get`. -/
def applyTransformsC (g : Grid) (c : Consistent) : Except String Grid :=
  let p1 := applyGlobal g (c.global_transform.getD GT.none)
  let p2 := applyValueMappings p1 c.value_mappings
  let p3 := applyObjects p2 c.mappings
  applyRels p3 c.relative_positions

/-- `TransformationPredictor._apply_transforms`.  On the empty dict (the
reduction of an empty training list) the source raises an uncaught
`KeyError` at `transforms['spatial_transforms']`; embedded as an error. -/
def apply_transforms (g : Grid) (c : Option Consistent) : Except String Grid :=
  match c with
  | none => Except.error "KeyError: spatial_transforms"
  | some c => applyTransformsC g c

/-- `TransformationPredictor.predict_output`. -/
def predict_output (input_grid : Grid) (training_inputs training_outputs : List Grid) :
    Except String Grid :=
  let transforms := (training_inputs.zip training_outputs).map fun q => analyze q.1 q.2
  apply_transforms input_grid (find_consistent_transforms transforms)

/-- Fuel-driven Euclidean gcd (`gcd x y = gcd (y % x) x`); fuel `x + 1`
always suffices since the first argument strictly decreases. -/
def gcdFuel : Nat → Nat → Nat → Nat
  | 0, _, y => y
  | _ + 1, 0, y => y
  | fuel + 1, x + 1, y => gcdFuel fuel (y % (x + 1)) (x + 1)

/-- Greatest common divisor via `gcdFuel`. -/
def natGcd (x y : Nat) : Nat := gcdFuel (x + 1) x y

/-- An exact rational value in canonical form (lowest terms, positive
denominator), so that structural equality is rational equality. -/
structure QV where
  num : Int
  den : Int
deriving DecidableEq, Repr

/-- Canonical rational `a / b` for `b ≠ 0`. -/
def qvMk (a b : Int) : QV :=
  let s : Int := if b < 0 then -1 else 1
  let g : Int := (natGcd a.natAbs b.natAbs : Nat)
  if g = 0 then ⟨0, 1⟩ else ⟨s * a / g, s * b / g⟩

/-- Value of a numpy float ratio: an exact rational, `inf`/`-inf` for
division of a non-zero value by zero, `nan` for `0/0` (numpy emits a
warning, not an exception).  Grid values are small integers, so distinct
exact ratios are distinct as float64 and the float equality tests of the
source coincide with equality of this type. -/
inductive RVal
  | q (x : QV)
  | inf
  | ninf
  | nan
deriving DecidableEq, Repr

/-- Float division `a / b` of two integer cells. -/
def fdiv (a b : Int) : RVal :=
  if b ≠ 0 then .q (qvMk a b)
  else if 0 < a then .inf
  else if a < 0 then .ninf
  else .nan

/-- `row[1:] / row[:-1]`: successive ratios over all adjacent pairs. -/
def rowRatios (row : List Int) : List RVal :=
  (row.zip row.tail).map fun ab => fdiv ab.2 ab.1

/-- Ratios surviving the `~np.isnan` filter (`inf` is not filtered). -/
def nonNanRatios (l : List RVal) : List RVal := l.filter fun r => r ≠ RVal.nan

/-- Successive differences `np.diff(row)`. -/
def rowDiffs (row : List Int) : List Int :=
  (row.zip row.tail).map fun ab => ab.2 - ab.1

/-- The arithmetic-progression guard of `PatternTester.test_progression`:
`len(set(diffs)) == 1`. -/
def arithRow (row : List Int) : Bool :=
  (rowDiffs row).dedup.length == 1

/-- The geometric-progression guard of `PatternTester.test_progression`:
`len(row[row != 0]) > 1 and len(set(ratios[~np.isnan(ratios)])) == 1`. -/
def geomRow (row : List Int) : Bool :=
  decide (1 < (row.filter fun x => x ≠ 0).length) &&
  (nonNanRatios (rowRatios row)).dedup.length == 1

/-- Location tag of a progression finding. -/
inductive Loc
  | row (i : Nat)
  | col (i : Nat)
deriving DecidableEq, Repr

/-- A `progression_types` entry. -/
inductive ProgFinding
  | arithmetic (location : Loc) (difference : Int)
  | geometric (location : Loc) (ratio : RVal)
deriving DecidableEq, Repr

/-- Findings for one line (row or column) in source append order. -/
def lineFindings (loc : Loc) (row : List Int) : List ProgFinding :=
  (if arithRow row then [ProgFinding.arithmetic loc ((rowDiffs row).headD 0)] else []) ++
  (if geomRow row then [ProgFinding.geometric loc ((rowRatios row).headD RVal.nan)] else [])

/-- `PatternTester.test_progression`: the `progression_types` list (the
`progression_found` flag is its non-emptiness).  Rows first, then the
columns of `grid.T`. -/
def test_progression (g : Grid) : List ProgFinding :=
  (g.enum.flatMap fun ri => lineFindings (Loc.row ri.1) ri.2) ++
  ((transposeG g).enum.flatMap fun ci => lineFindings (Loc.col ci.1) ci.2)

/-- The per-grid validator `validate_grid` of
`recipe_testing/data_handlers.py` (invoked from `validate_task_data` before
any analysis touches a task's grids): rejects an empty grid and ragged
rows.  The source's rows-are-lists and values-are-numbers checks are
vacuous at this type.  The raised `TaskError` is the spec's
`MalformedGridError`; it is embedded as `Except.error`. -/
def validate_grid (grid : Grid) : Except String Unit :=
  if grid = [] then Except.error "must be non-empty"
  else if ¬ (grid.all fun row => row.length == (grid.headD []).length) then
    Except.error "must be rectangular"
  else Except.ok ()

/-- Union of the cell sets of a list of objects. -/
def objectsUnion (objs : List Obj) : Finset (Int × Int) :=
  objs.foldr (fun o s => o.coords.toFinset ∪ s) ∅

/-- The set of in-bounds cells holding a non-zero value. -/
def nonzeroCells (g : Grid) : Finset (Int × Int) :=
  (allCells g).toFinset.filter fun p => gget g p.1 p.2 ≠ 0

/-- Invariant of the `get_objects` scan state: the `seen` set is exactly the
union of the emitted objects' cells, the objects are pairwise cell-disjoint,
and every object cell is an in-bounds non-zero cell. -/
def ObjInv (g : Grid) (st : Finset (Int × Int) × List Obj) : Prop :=
  st.1 = objectsUnion st.2 ∧
  st.2.Pairwise (fun a b => ∀ p ∈ a.coords, p ∉ b.coords) ∧
  ∀ o ∈ st.2, ∀ p ∈ o.coords, inBounds g p ∧ gget g p.1 p.2 ≠ 0

/-- A list of output values determines a single conditional-table entry when
it holds exactly one distinct value (`len(set(values)) == 1`). -/
def singleValued (l : List Int) : Prop := l.dedup.length = 1

instance (l : List Int) : Decidable (singleValued l) := by
  unfold singleValued; infer_instance

/-- A one-cell object of value `v`, for concrete reducer inputs. -/
def objV (v : Int) : Obj := ⟨v, [(0, 0)]⟩

/-- A concrete analysis whose only object mapping is a singleton match of a
`value_change` transform on an input object of value 3. -/
def analysisA : Analysis :=
  { value_mappings := []
    object_transforms := ⟨0, [⟨objV 3, [⟨objV 3, OT.value_change 1 2⟩]⟩]⟩
    spatial_transforms := ⟨GT.none, []⟩ }

/-- Like `analysisA` but with an input object of value 5 carrying the same
singleton-match transform. -/
def analysisB : Analysis :=
  { value_mappings := []
    object_transforms := ⟨0, [⟨objV 5, [⟨objV 5, OT.value_change 1 2⟩]⟩]⟩
    spatial_transforms := ⟨GT.none, []⟩ }

instance {ε α : Type} [DecidableEq ε] [DecidableEq α] : DecidableEq (Except ε α) :=
  fun x y =>
    match x, y with
    | .ok a, .ok b =>
      if h : a = b then isTrue (by rw [h]) else isFalse (fun hc => h (Except.ok.inj hc))
    | .error a, .error b =>
      if h : a = b then isTrue (by rw [h]) else isFalse (fun hc => h (Except.error.inj hc))
    | .ok _, .error _ => isFalse (fun hc => Except.noConfusion hc)
    | .error _, .ok _ => isFalse (fun hc => Except.noConfusion hc)

/-- C7: the boundary grid validator accepts a grid exactly when it is
non-empty with all rows of equal length; for every malformed grid it fails
(with the source's `TaskError`, the spec's `MalformedGridError`) and for
every well-formed grid no error is raised. -/
theorem validate_grid_ok_iff (g : Grid) :
    validate_grid g = Except.ok () ↔ WellFormed g := by
  unfold validate_grid WellFormed width
  split
  · rename_i h
    simp [h]
  · rename_i h
    split
    · rename_i hr
      simp only [List.all_eq_true, beq_iff_eq] at hr
      constructor
      · intro hc; exact absurd hc (by simp)
      · intro ⟨_, hrows⟩; exact absurd hrows hr
    · rename_i hr
      simp only [not_not, List.all_eq_true, beq_iff_eq] at hr
      exact ⟨fun _ => ⟨h, hr⟩, fun _ => rfl⟩

/-- C10: with an empty list of training pairs the consistent-transform
reduction yields the empty dict, and the application step fails with an
uncaught `KeyError` on the missing `spatial_transforms` key instead of
returning any grid. -/
theorem predict_output_empty_training (g : Grid) :
    find_consistent_transforms ([] : List Analysis) = none ∧
    predict_output g [] [] = Except.error "KeyError: spatial_transforms" :=
  ⟨rfl, rfl⟩

/-- C3 counterexample: on scenario 1 (`[[0,0,0],[0,1,0],[0,0,0]]` to
`[[1,1,1],[1,0,1],[1,1,1]]`) the analyzer does not report the claimed
bijective inversion `{0: direct 1, 1: direct 0}` — value 0 is skipped as
background, so no mapping for 0 exists. -/
theorem analyze_value_mappings_scenario1_refuted :
    ¬ (((analyze_value_mappings [[0,0,0],[0,1,0],[0,0,0]]
          [[1,1,1],[1,0,1],[1,1,1]]).lookup 0 = some (Mapping.direct 1)) ∧
       ((analyze_value_mappings [[0,0,0],[0,1,0],[0,0,0]]
          [[1,1,1],[1,0,1],[1,1,1]]).lookup 1 = some (Mapping.direct 0))) := by
  decide

/-- C3 amended: on scenario 1 the analyzer reports exactly
`{1: direct 0}`; the background value 0 is skipped and gets no mapping. -/
theorem analyze_value_mappings_scenario1 :
    analyze_value_mappings [[0,0,0],[0,1,0],[0,0,0]] [[1,1,1],[1,0,1],[1,1,1]] =
      [(1, Mapping.direct 0)] := by
  decide

/-- C5 counterexample: for `[[1]]` versus `[[2]]` no rotation, flip or
content-level scaling equality holds, yet the analyzer reports `scale 1`
instead of `none` — the scaling branch compares only dimensions. -/
theorem find_global_transform_scale_without_content :
    (∀ k ∈ [1, 2, 3], rotk k [[1]] ≠ ([[2]] : Grid)) ∧
    flipG .horizontal [[1]] ≠ ([[2]] : Grid) ∧
    flipG .vertical [[1]] ≠ ([[2]] : Grid) ∧
    kron [[1]] 1 ≠ ([[2]] : Grid) ∧
    find_global_transform [[1]] [[2]] = GT.scale 1 := by
  decide

/-- C5 amended: `_find_global_transform` returns `none` exactly when the
whole-grid rotation/flip equality checks fail (vacuous for unequal shapes)
and additionally the dimension-only scaling check fails; content never
enters the scaling check. -/
theorem find_global_transform_returns_none (g1 g2 : Grid)
    (hrf : height g1 = height g2 → width g1 = width g2 →
      rotk 1 g1 ≠ g2 ∧ rotk 2 g1 ≠ g2 ∧ rotk 3 g1 ≠ g2 ∧
      flipG .horizontal g1 ≠ g2 ∧ flipG .vertical g1 ≠ g2)
    (hs : ¬ (height g2 % height g1 = 0 ∧ width g2 % width g1 = 0 ∧
      height g2 / height g1 = width g2 / width g1)) :
    find_global_transform g1 g2 = GT.none := by
  have h1 : ¬ ((height g1 = height g2 ∧ width g1 = width g2) ∧ rotk 1 g1 = g2) :=
    fun h => (hrf h.1.1 h.1.2).1 h.2
  have h2 : ¬ ((height g1 = height g2 ∧ width g1 = width g2) ∧ rotk 2 g1 = g2) :=
    fun h => (hrf h.1.1 h.1.2).2.1 h.2
  have h3 : ¬ ((height g1 = height g2 ∧ width g1 = width g2) ∧ rotk 3 g1 = g2) :=
    fun h => (hrf h.1.1 h.1.2).2.2.1 h.2
  have h4 : ¬ ((height g1 = height g2 ∧ width g1 = width g2) ∧
      flipG .horizontal g1 = g2) :=
    fun h => (hrf h.1.1 h.1.2).2.2.2.1 h.2
  have h5 : ¬ ((height g1 = height g2 ∧ width g1 = width g2) ∧
      flipG .vertical g1 = g2) :=
    fun h => (hrf h.1.1 h.1.2).2.2.2.2 h.2
  simp [find_global_transform, h1, h2, h3, h4, h5, hs]

/-- Witness for the C5 amended theorem at a concrete shape-incompatible
pair. -/
theorem find_global_transform_returns_none_witness :
    find_global_transform [[1]] [[0,0],[0,0],[0,0]] = GT.none :=
  find_global_transform_returns_none [[1]] [[0,0],[0,0],[0,0]]
    (fun h => absurd h (by decide)) (by decide)

/-- C6 counterexample: on scenario 2 the global transform is not
`flip(vertical)`, and prediction does not return the test input unchanged. -/
theorem global_transform_scenario2_refuted :
    find_global_transform [[1,0,0],[0,0,0],[0,0,0]] [[0,0,1],[0,0,0],[0,0,0]] ≠
      GT.flip Axis.vertical ∧
    predict_output [[0,1,0],[0,0,0],[0,0,0]]
        [[[1,0,0],[0,0,0],[0,0,0]]] [[[0,0,1],[0,0,0],[0,0,0]]] ≠
      Except.ok [[0,1,0],[0,0,0],[0,0,0]] := by
  decide

/-- C9 counterexample: on the row `[5,0,7,0]` a ratio is computed at a zero
divisor (the `inf` entry of `7/0`), contradicting "ratios computed only
over nonzero adjacent pairs"; both nonzero-divisor ratios equal 0, yet the
unfiltered `inf` suppresses the geometric report and `test_progression`
reports nothing for the grid `[[5,0,7,0]]`. -/
theorem test_progression_ratio_at_zero_divisor :
    RVal.inf ∈ rowRatios [5, 0, 7, 0] ∧
    ((([5, 0, 7, 0] : List Int).zip [0, 7, 0]).filter fun ab => ab.1 ≠ 0).map
        (fun ab => fdiv ab.2 ab.1) = [RVal.q ⟨0, 1⟩, RVal.q ⟨0, 1⟩] ∧
    geomRow [5, 0, 7, 0] = false ∧
    test_progression [[5, 0, 7, 0]] = [] := by
  decide

/-- C9 amended: ratios are computed over all adjacent pairs (division by a
zero cell yields `inf`/`nan` without an exception); `nan` ratios (0/0) are
filtered before the equality test but `inf` ratios are not.  Consequently,
whenever a geometric progression is reported for a line, the line has more
than one nonzero value and all surviving (non-`nan`) ratios — and in
particular all ratios over nonzero-divisor adjacent pairs — are equal. -/
theorem geometric_reported_only_if (row : List Int) (h : geomRow row = true) :
    1 < (row.filter fun x => x ≠ 0).length ∧
    ∃ v : RVal, v ≠ RVal.nan ∧
      nonNanRatios (rowRatios row) ≠ [] ∧
      (∀ r ∈ nonNanRatios (rowRatios row), r = v) ∧
      (∀ ab ∈ row.zip row.tail, ab.1 ≠ 0 → fdiv ab.2 ab.1 = v) := by
  unfold geomRow at h
  rw [Bool.and_eq_true, decide_eq_true_eq, beq_iff_eq] at h
  obtain ⟨hlen, hded⟩ := h
  refine ⟨hlen, ?_⟩
  obtain ⟨v, hv⟩ : ∃ v, (nonNanRatios (rowRatios row)).dedup = [v] := by
    rcases hd : (nonNanRatios (rowRatios row)).dedup with _ | ⟨v, _ | ⟨w, t⟩⟩
    · rw [hd] at hded; simp at hded
    · exact ⟨v, rfl⟩
    · rw [hd] at hded; simp at hded
  have hall : ∀ r ∈ nonNanRatios (rowRatios row), r = v := by
    intro r hr
    have : r ∈ (nonNanRatios (rowRatios row)).dedup := List.mem_dedup.mpr hr
    rw [hv] at this
    simpa using this
  have hvmem : v ∈ nonNanRatios (rowRatios row) := by
    have : v ∈ (nonNanRatios (rowRatios row)).dedup := by rw [hv]; simp
    exact List.mem_dedup.mp this
  have hvnan : v ≠ RVal.nan := by
    have := List.of_mem_filter hvmem
    simpa using this
  refine ⟨v, hvnan, ?_, hall, ?_⟩
  · intro hc; rw [hc] at hvmem; simp at hvmem
  · intro ab hab hnz
    apply hall
    unfold nonNanRatios
    rw [List.mem_filter]
    constructor
    · exact List.mem_map.mpr ⟨ab, hab, rfl⟩
    · have : fdiv ab.2 ab.1 = RVal.q (qvMk ab.2 ab.1) := by
        unfold fdiv; rw [if_pos hnz]
      rw [this]
      simp

/-- Witness for the C9 amended theorem on the geometric row `[2,4,8]`. -/
theorem geometric_reported_only_if_witness :
    1 < (([2, 4, 8] : List Int).filter fun x => x ≠ 0).length ∧
    ∃ v : RVal, v ≠ RVal.nan ∧
      nonNanRatios (rowRatios [2, 4, 8]) ≠ [] ∧
      (∀ r ∈ nonNanRatios (rowRatios [2, 4, 8]), r = v) ∧
      (∀ ab ∈ ([2, 4, 8] : List Int).zip ([2, 4, 8] : List Int).tail,
        ab.1 ≠ 0 → fdiv ab.2 ab.1 = v) :=
  geometric_reported_only_if [2, 4, 8] (by decide)

/-- Flood-fill state law: the returned `seen` is the old `seen` together
with the returned coordinates, and every returned coordinate is fresh,
in bounds, and holds the fill value. -/
theorem floodFill_spec (g : Grid) (v : Int) :
    ∀ (fuel : Nat) (p : Int × Int) (seen : Finset (Int × Int)),
      (floodFill g v fuel p seen).2 = seen ∪ (floodFill g v fuel p seen).1.toFinset ∧
      ∀ q ∈ (floodFill g v fuel p seen).1,
        q ∉ seen ∧ inBounds g q ∧ gget g q.1 q.2 = v := by
  intro fuel
  induction fuel with
  | zero =>
    intro p seen
    simp [floodFill]
  | succ n ih =>
    intro p seen
    simp only [floodFill]
    split
    · rename_i hgd
      obtain ⟨hb, hv, hs⟩ := hgd
      set A := floodFill g v n (p.1 + 1, p.2) (insert p seen) with hA
      set B := floodFill g v n (p.1 - 1, p.2) A.2 with hB
      set C := floodFill g v n (p.1, p.2 + 1) B.2 with hC
      set D := floodFill g v n (p.1, p.2 - 1) C.2 with hD
      have SA := ih (p.1 + 1, p.2) (insert p seen)
      rw [← hA] at SA
      have SB := ih (p.1 - 1, p.2) A.2
      rw [← hB] at SB
      have SC := ih (p.1, p.2 + 1) B.2
      rw [← hC] at SC
      have SD := ih (p.1, p.2 - 1) C.2
      rw [← hD] at SD
      have hsA : seen ⊆ A.2 := by
        rw [SA.1]
        exact fun x hx => Finset.mem_union_left _ (Finset.mem_insert_of_mem hx)
      have hAB : A.2 ⊆ B.2 := by
        rw [SB.1]; exact Finset.subset_union_left
      have hBC : B.2 ⊆ C.2 := by
        rw [SC.1]; exact Finset.subset_union_left
      constructor
      · show D.2 = seen ∪ (p :: (A.1 ++ B.1 ++ C.1 ++ D.1)).toFinset
        rw [SD.1, SC.1, SB.1, SA.1]
        ext q
        simp only [Finset.mem_union, Finset.mem_insert, List.toFinset_cons,
          List.toFinset_append, List.mem_toFinset]
        tauto
      · intro q hq
        rcases List.mem_cons.mp hq with rfl | hq
        · exact ⟨hs, hb, hv⟩
        · rcases List.mem_append.mp hq with hq | hq4
          · rcases List.mem_append.mp hq with hq | hq3
            · rcases List.mem_append.mp hq with hq1 | hq2
              · obtain ⟨hn, hbq, hvq⟩ := SA.2 q hq1
                exact ⟨fun hc => hn (Finset.mem_insert_of_mem hc), hbq, hvq⟩
              · obtain ⟨hn, hbq, hvq⟩ := SB.2 q hq2
                exact ⟨fun hc => hn (hsA hc), hbq, hvq⟩
            · obtain ⟨hn, hbq, hvq⟩ := SC.2 q hq3
              exact ⟨fun hc => hn (hAB (hsA hc)), hbq, hvq⟩
          · obtain ⟨hn, hbq, hvq⟩ := SD.2 q hq4
            exact ⟨fun hc => hn (hBC (hAB (hsA hc))), hbq, hvq⟩
    · simp

/-- When the guard passes, the seed cell is in the returned coordinates. -/
theorem floodFill_seed (g : Grid) (v : Int) (n : Nat) (p : Int × Int)
    (seen : Finset (Int × Int))
    (h : inBounds g p ∧ gget g p.1 p.2 = v ∧ p ∉ seen) :
    p ∈ (floodFill g v (n + 1) p seen).1 := by
  simp only [floodFill, if_pos h]
  exact List.mem_cons_self _ _

/-- One scan step never shrinks the `seen` set. -/
theorem objStep_seen_mono (g : Grid) (st : Finset (Int × Int) × List Obj)
    (p : Int × Int) : st.1 ⊆ (objStep g st p).1 := by
  obtain ⟨e, _⟩ := floodFill_spec g (gget g p.1 p.2) (gridFuel g) p st.1
  simp only [objStep]
  split
  · split
    · exact fun x hx => e ▸ Finset.mem_union_left _ hx
    · exact fun x hx => e ▸ Finset.mem_union_left _ hx
  · exact Finset.Subset.refl _

/-- The whole scan never shrinks the `seen` set. -/
theorem foldl_objStep_seen_mono (g : Grid) :
    ∀ (cs : List (Int × Int)) (st : Finset (Int × Int) × List Obj),
      st.1 ⊆ (cs.foldl (objStep g) st).1
  | [], _ => Finset.Subset.refl _
  | q :: cs, st =>
    (objStep_seen_mono g st q).trans (foldl_objStep_seen_mono g cs (objStep g st q))

/-- Every non-zero in-bounds cell of the scan list ends up in `seen`. -/
theorem foldl_objStep_covers (g : Grid) :
    ∀ (cs : List (Int × Int)) (st : Finset (Int × Int) × List Obj),
      ∀ p ∈ cs, inBounds g p → gget g p.1 p.2 ≠ 0 →
        p ∈ (cs.foldl (objStep g) st).1 := by
  intro cs
  induction cs with
  | nil =>
    intro st p hp
    cases hp
  | cons q cs ih =>
    intro st p hp hb hnz
    rcases List.mem_cons.mp hp with rfl | hp
    · have hq : p ∈ (objStep g st p).1 := by
        by_cases hseen : p ∈ st.1
        · exact objStep_seen_mono g st p hseen
        · have hgd : p ∉ st.1 ∧ gget g p.1 p.2 ≠ 0 := ⟨hseen, hnz⟩
          obtain ⟨e, _⟩ := floodFill_spec g (gget g p.1 p.2) (gridFuel g) p st.1
          have hmem : p ∈ (floodFill g (gget g p.1 p.2) (gridFuel g) p st.1).1 :=
            floodFill_seed g (gget g p.1 p.2) (height g * width g) p st.1 ⟨hb, rfl, hseen⟩
          simp only [objStep, if_pos hgd]
          split
          · exact e ▸ Finset.mem_union_right _ (List.mem_toFinset.mpr hmem)
          · exact e ▸ Finset.mem_union_right _ (List.mem_toFinset.mpr hmem)
      exact foldl_objStep_seen_mono g cs (objStep g st p) hq
    · exact ih (objStep g st q) p hp hb hnz

/-- `objectsUnion` distributes over append. -/
theorem objectsUnion_append (l1 l2 : List Obj) :
    objectsUnion (l1 ++ l2) = objectsUnion l1 ∪ objectsUnion l2 := by
  induction l1 with
  | nil =>
    show objectsUnion l2 = ∅ ∪ objectsUnion l2
    rw [Finset.empty_union]
  | cons o t ih =>
    show o.coords.toFinset ∪ objectsUnion (t ++ l2) =
      (o.coords.toFinset ∪ objectsUnion t) ∪ objectsUnion l2
    rw [ih, Finset.union_assoc]

/-- Membership in the union of object cell sets. -/
theorem mem_objectsUnion (q : Int × Int) (objs : List Obj) :
    q ∈ objectsUnion objs ↔ ∃ o ∈ objs, q ∈ o.coords := by
  induction objs with
  | nil => simp [objectsUnion]
  | cons o t ih =>
    show q ∈ o.coords.toFinset ∪ objectsUnion t ↔ _
    rw [Finset.mem_union, List.mem_toFinset, ih]
    constructor
    · rintro (h | ⟨o', ho', hq⟩)
      · exact ⟨o, List.mem_cons_self _ _, h⟩
      · exact ⟨o', List.mem_cons_of_mem _ ho', hq⟩
    · rintro ⟨o', ho', hq⟩
      rcases List.mem_cons.mp ho' with rfl | ho'
      · exact Or.inl hq
      · exact Or.inr ⟨o', ho', hq⟩

/-- One scan step preserves the `get_objects` invariant. -/
theorem objStep_inv (g : Grid) (st : Finset (Int × Int) × List Obj)
    (p : Int × Int) (hI : ObjInv g st) : ObjInv g (objStep g st p) := by
  obtain ⟨hu, hpw, hpt⟩ := hI
  simp only [objStep]
  split
  · rename_i hgd
    obtain ⟨e, m⟩ := floodFill_spec g (gget g p.1 p.2) (gridFuel g) p st.1
    split
    · rename_i hne
      refine ⟨?_, ?_, ?_⟩
      · show (floodFill g (gget g p.1 p.2) (gridFuel g) p st.1).2 =
          objectsUnion (st.2 ++
            [⟨gget g p.1 p.2, (floodFill g (gget g p.1 p.2) (gridFuel g) p st.1).1⟩])
        rw [e, objectsUnion_append, hu]
        show _ = _ ∪ (_ ∪ (∅ : Finset (Int × Int)))
        rw [Finset.union_empty]
      · show (st.2 ++ [_]).Pairwise _
        rw [List.pairwise_append]
        refine ⟨hpw, List.pairwise_singleton _ _, ?_⟩
        intro a ha b hb
        rcases List.mem_singleton.mp hb with rfl
        intro q hq hq'
        exact (m q hq').1 (hu ▸ (mem_objectsUnion q st.2).mpr ⟨a, ha, hq⟩)
      · intro o ho q hq
        rcases List.mem_append.mp ho with ho | ho
        · exact hpt o ho q hq
        · rcases List.mem_singleton.mp ho with rfl
          obtain ⟨_, hbq, hvq⟩ := m q hq
          refine ⟨hbq, ?_⟩
          rw [hvq]
          exact hgd.2
    · rename_i hne
      refine ⟨?_, hpw, hpt⟩
      show (floodFill g (gget g p.1 p.2) (gridFuel g) p st.1).2 = objectsUnion st.2
      rw [e, not_not.mp hne]
      show st.1 ∪ (∅ : Finset (Int × Int)) = _
      rw [Finset.union_empty, hu]
  · exact ⟨hu, hpw, hpt⟩

/-- The whole scan preserves the `get_objects` invariant. -/
theorem foldl_objStep_inv (g : Grid) :
    ∀ (cs : List (Int × Int)) (st : Finset (Int × Int) × List Obj),
      ObjInv g st → ObjInv g (cs.foldl (objStep g) st)
  | [], _, h => h
  | q :: cs, st, h => foldl_objStep_inv g cs (objStep g st q) (objStep_inv g st q h)

/-- The scan list holds exactly the in-bounds cells. -/
theorem mem_allCells (g : Grid) (p : Int × Int) : p ∈ allCells g ↔ inBounds g p := by
  obtain ⟨a, b⟩ := p
  unfold allCells inBounds
  constructor
  · intro h
    obtain ⟨r, hrl, hmem⟩ := List.mem_flatMap.mp h
    obtain ⟨c, hcl, heq⟩ := List.mem_map.mp hmem
    injection heq with e1 e2
    subst e1
    subst e2
    have hr := List.mem_range.mp hrl
    have hc := List.mem_range.mp hcl
    exact ⟨Int.natCast_nonneg r, Int.ofNat_lt.mpr hr,
      Int.natCast_nonneg c, Int.ofNat_lt.mpr hc⟩
  · rintro ⟨h1, h2, h3, h4⟩
    apply List.mem_flatMap.mpr
    refine ⟨a.toNat, List.mem_range.mpr (by omega), ?_⟩
    apply List.mem_map.mpr
    refine ⟨b.toNat, List.mem_range.mpr (by omega), ?_⟩
    show ((a.toNat : Int), (b.toNat : Int)) = (a, b)
    rw [Int.toNat_of_nonneg h1, Int.toNat_of_nonneg h3]

/-- Membership law for the non-zero cell set. -/
theorem mem_nonzeroCells (g : Grid) (p : Int × Int) :
    p ∈ nonzeroCells g ↔ inBounds g p ∧ gget g p.1 p.2 ≠ 0 := by
  unfold nonzeroCells
  rw [Finset.mem_filter, List.mem_toFinset, mem_allCells]

/-- C1: for every well-formed grid, the objects extracted by `get_objects`
have pairwise disjoint cell sets, and the union of all their cells is
exactly the set of non-zero cells of the grid. -/
theorem get_objects_partition (g : Grid) (_hwf : WellFormed g) :
    (get_objects g).Pairwise (fun a b => ∀ p ∈ a.coords, p ∉ b.coords) ∧
    objectsUnion (get_objects g) = nonzeroCells g := by
  have h0 : ObjInv g (∅, []) :=
    ⟨rfl, List.Pairwise.nil, by intro o ho; cases ho⟩
  obtain ⟨hu, hpw, hpt⟩ := foldl_objStep_inv g (allCells g) (∅, []) h0
  refine ⟨hpw, ?_⟩
  apply Finset.ext
  intro q
  rw [mem_nonzeroCells]
  constructor
  · intro hq
    obtain ⟨o, ho, hqo⟩ := (mem_objectsUnion q _).mp hq
    exact hpt o ho q hqo
  · intro hq
    have hcov := foldl_objStep_covers g (allCells g) (∅, []) q
      ((mem_allCells g q).mpr hq.1) hq.1 hq.2
    exact hu ▸ hcov

/-- Witness for C1 on a concrete well-formed grid with two objects. -/
theorem get_objects_partition_witness :
    WellFormed [[1, 0], [2, 2]] ∧
    ((get_objects [[1, 0], [2, 2]]).Pairwise
        (fun a b => ∀ p ∈ a.coords, p ∉ b.coords) ∧
      objectsUnion (get_objects [[1, 0], [2, 2]]) = nonzeroCells [[1, 0], [2, 2]]) :=
  ⟨by decide, get_objects_partition [[1, 0], [2, 2]] (by decide)⟩

/-- Folding a function that ignores its second argument is the identity. -/
theorem foldl_const {α β : Type} : ∀ (l : List β) (x : α),
    l.foldl (fun q _ => q) x = x
  | [], _ => rfl
  | _ :: t, x => foldl_const t x

/-- The object step with no surviving object-transform mappings changes
nothing. -/
theorem applyObjects_nil (p : Grid) : applyObjects p [] = p :=
  foldl_const (get_objects p) p

/-- C8: when the consistent hypothesis is empty — no value mapping, no
object-transform mapping, no (or a trivial) global transform, and no
relative-position delta — the applier returns a grid element-wise equal to
the input (the identity fallback; the source works on a fresh copy of the
input, never mutating it). -/
theorem apply_transforms_identity_fallback (g : Grid) (c : Consistent)
    (hvm : c.value_mappings = []) (hom : c.mappings = [])
    (hgt : c.global_transform = none ∨ c.global_transform = some GT.none)
    (hrel : c.relative_positions = []) :
    apply_transforms g (some c) = Except.ok g := by
  have hg : applyGlobal g (c.global_transform.getD GT.none) = g := by
    rcases hgt with h | h <;> rw [h] <;> rfl
  show applyTransformsC g c = Except.ok g
  simp only [applyTransformsC]
  rw [hg, hvm, hom, hrel]
  rw [show applyValueMappings g [] = g from rfl, applyObjects_nil]
  rfl

/-- Witness for the C8 theorem on a concrete grid and empty hypothesis. -/
theorem apply_transforms_identity_fallback_witness :
    apply_transforms [[1, 2], [3, 0]] (some ⟨[], some 0, [], none, []⟩) =
      Except.ok [[1, 2], [3, 0]] :=
  apply_transforms_identity_fallback [[1, 2], [3, 0]] ⟨[], some 0, [], none, []⟩
    rfl rfl (Or.inl rfl) rfl

/-- Lookup in an association list with distinct keys finds exactly the
member pairs. -/
theorem lookup_eq_some_iff_mem {β : Type} (v : Int) (m : β) :
    ∀ (l : List (Int × β)), (l.map Prod.fst).Nodup →
      (l.lookup v = some m ↔ (v, m) ∈ l)
  | [], _ => by simp
  | (k, b) :: t, hnd => by
    have hnd' := hnd
    simp only [List.map_cons, List.nodup_cons] at hnd'
    rw [List.lookup_cons]
    by_cases hvk : v = k
    · subst hvk
      simp only [beq_self_eq_true]
      constructor
      · intro h
        have hb : b = m := Option.some.inj h
        subst hb
        exact List.mem_cons_self _ _
      · intro h
        rcases List.mem_cons.mp h with h | h
        · exact congrArg some (Prod.ext_iff.mp h).2.symm
        · exact absurd (List.mem_map_of_mem Prod.fst h) hnd'.1
    · simp only [show (v == k) = false from beq_eq_false_iff_ne.mpr hvk]
      rw [lookup_eq_some_iff_mem v m t hnd'.2]
      constructor
      · intro h
        exact List.mem_cons_of_mem _ h
      · intro h
        rcases List.mem_cons.mp h with h | h
        · exact absurd (Prod.ext_iff.mp h).1 hvk
        · exact h

/-- Value-mapping lookup law of the consistency reduction: an entry survives
with mapping `m` exactly when the first analysis has it and every later
analysis looks it up identically. -/
theorem consistentOf_vm_lookup (t0 : Analysis) (rest : List Analysis)
    (hnd : (t0.value_mappings.map Prod.fst).Nodup) (v : Int) (m : Mapping) :
    (consistentOf t0 rest).value_mappings.lookup v = some m ↔
      (t0.value_mappings.lookup v = some m ∧
        ∀ t ∈ rest, t.value_mappings.lookup v = some m) := by
  have hsub : (((t0.value_mappings.filter fun vm =>
      rest.all fun t => decide (t.value_mappings.lookup vm.1 = some vm.2)).map
        Prod.fst)).Nodup :=
    List.Nodup.sublist ((List.filter_sublist _).map Prod.fst) hnd
  have hvm : (consistentOf t0 rest).value_mappings =
      t0.value_mappings.filter fun vm =>
        rest.all fun t => decide (t.value_mappings.lookup vm.1 = some vm.2) := rfl
  rw [hvm, lookup_eq_some_iff_mem v m _ hsub, lookup_eq_some_iff_mem v m _ hnd,
    List.mem_filter]
  simp only [List.all_eq_true, decide_eq_true_eq]

/-- Object-count law of the consistency reduction. -/
theorem consistentOf_oc (t0 : Analysis) (rest : List Analysis) (x : Int) :
    (consistentOf t0 rest).object_count_change = some x ↔
      (t0.object_transforms.object_count_change = x ∧
        ∀ t ∈ rest, t.object_transforms.object_count_change = x) := by
  have hoc : (consistentOf t0 rest).object_count_change =
      if rest.all fun t => decide (t.object_transforms.object_count_change =
          t0.object_transforms.object_count_change)
      then some t0.object_transforms.object_count_change else none := rfl
  rw [hoc]
  split
  · rename_i h
    simp only [List.all_eq_true, decide_eq_true_eq] at h
    constructor
    · intro hx
      have h0 := Option.some.inj hx
      exact ⟨h0, fun t ht => (h t ht).trans h0⟩
    · intro hx
      rw [hx.1]
  · rename_i h
    simp only [List.all_eq_true, decide_eq_true_eq] at h
    constructor
    · intro hx
      cases hx
    · intro hx
      exact absurd (fun t ht => (hx.2 t ht).trans hx.1.symm) h

/-- Global-transform law of the consistency reduction. -/
theorem consistentOf_gt (t0 : Analysis) (rest : List Analysis) (x : GT) :
    (consistentOf t0 rest).global_transform = some x ↔
      (t0.spatial_transforms.global_transform = x ∧
        ∀ t ∈ rest, t.spatial_transforms.global_transform = x) := by
  have hgt : (consistentOf t0 rest).global_transform =
      if rest.all fun t => decide (t.spatial_transforms.global_transform =
          t0.spatial_transforms.global_transform)
      then some t0.spatial_transforms.global_transform else none := rfl
  rw [hgt]
  split
  · rename_i h
    simp only [List.all_eq_true, decide_eq_true_eq] at h
    constructor
    · intro hx
      have h0 := Option.some.inj hx
      exact ⟨h0, fun t ht => (h t ht).trans h0⟩
    · intro hx
      rw [hx.1]
  · rename_i h
    simp only [List.all_eq_true, decide_eq_true_eq] at h
    constructor
    · intro hx
      cases hx
    · intro hx
      exact absurd (fun t ht => (hx.2 t ht).trans hx.1.symm) h

/-- For a single analysis every per-pair check is vacuous: all value
mappings, the count change, the global transform, all relative-position
deltas, and every singleton-match non-complex object transform survive. -/
theorem consistentOf_single (a : Analysis) :
    consistentOf a [] =
      { value_mappings := a.value_mappings
        object_count_change := some a.object_transforms.object_count_change
        mappings := a.object_transforms.object_mappings.filterMap fun mp =>
          match mp.matches' with
          | [m] =>
            if m.transform ≠ OT.complex then some (mp.input_object.value, m.transform)
            else none
          | _ => none
        global_transform := some a.spatial_transforms.global_transform
        relative_positions := a.spatial_transforms.relative_positions } := by
  unfold consistentOf
  congr 1
  · exact List.filter_eq_self.mpr fun x _ => rfl
  · apply List.filterMap_congr
    intro mp _
    cases hms : mp.matches' with
    | nil => rfl
    | cons m t =>
      cases t with
      | nil => by_cases hc : m.transform = OT.complex <;> simp [hc]
      | cons w t' => rfl
  · exact List.filter_eq_self.mpr fun x _ => rfl

/-- C2 counterexample: two analyses that each carry the same singleton-match
transform on input objects of different values; reducing them in the two
orders yields different consistent dicts (the surviving object-transform
entry records the first analysis's input-object value). -/
theorem find_consistent_transforms_order_dependent :
    find_consistent_transforms [analysisA, analysisB] ≠
      find_consistent_transforms [analysisB, analysisA] := by
  decide

/-- C2 amended: the reduction keeps a value mapping, object-count change or
global transform exactly when it is identical in every pair, making those
components invariant under permutation of the analyses; for a single
analysis everything except multi-match or complex object transforms
survives.  (Permutation invariance fails for the object-transform and
relative-position components, which take the input value, respectively the
list order, from the first analysis.) -/
theorem find_consistent_componentwise
    (a : Analysis) (l l' : List Analysis) (c c' : Consistent)
    (h : find_consistent_transforms l = some c)
    (h' : find_consistent_transforms l' = some c')
    (hp : l.Perm l')
    (hnd : ∀ t ∈ l, (t.value_mappings.map Prod.fst).Nodup) :
    (∀ v m, c.value_mappings.lookup v = some m ↔
      ∀ t ∈ l, t.value_mappings.lookup v = some m) ∧
    (∀ x, c.object_count_change = some x ↔
      ∀ t ∈ l, t.object_transforms.object_count_change = x) ∧
    (∀ x, c.global_transform = some x ↔
      ∀ t ∈ l, t.spatial_transforms.global_transform = x) ∧
    (∀ v m, c.value_mappings.lookup v = some m ↔
      c'.value_mappings.lookup v = some m) ∧
    c.object_count_change = c'.object_count_change ∧
    c.global_transform = c'.global_transform ∧
    find_consistent_transforms [a] =
      some { value_mappings := a.value_mappings
             object_count_change := some a.object_transforms.object_count_change
             mappings := a.object_transforms.object_mappings.filterMap fun mp =>
               match mp.matches' with
               | [m] =>
                 if m.transform ≠ OT.complex then
                   some (mp.input_object.value, m.transform)
                 else none
               | _ => none
             global_transform := some a.spatial_transforms.global_transform
             relative_positions := a.spatial_transforms.relative_positions } := by
  have key : ∀ (L : List Analysis) (C : Consistent),
      find_consistent_transforms L = some C →
      (∀ t ∈ L, (t.value_mappings.map Prod.fst).Nodup) →
      (∀ v m, C.value_mappings.lookup v = some m ↔
        ∀ t ∈ L, t.value_mappings.lookup v = some m) ∧
      (∀ x, C.object_count_change = some x ↔
        ∀ t ∈ L, t.object_transforms.object_count_change = x) ∧
      (∀ x, C.global_transform = some x ↔
        ∀ t ∈ L, t.spatial_transforms.global_transform = x) := by
    intro L C hC hndL
    cases L with
    | nil => cases hC
    | cons t0 rest =>
      obtain rfl : C = consistentOf t0 rest := (Option.some.inj hC).symm
      refine ⟨?_, ?_, ?_⟩
      · intro v m
        rw [consistentOf_vm_lookup t0 rest (hndL t0 (List.mem_cons_self _ _)) v m,
          List.forall_mem_cons]
      · intro x
        rw [consistentOf_oc t0 rest x, List.forall_mem_cons]
      · intro x
        rw [consistentOf_gt t0 rest x, List.forall_mem_cons]
  obtain ⟨k1, k2, k3⟩ := key l c h hnd
  have hnd' : ∀ t ∈ l', (t.value_mappings.map Prod.fst).Nodup :=
    fun t ht => hnd t (hp.mem_iff.mpr ht)
  obtain ⟨k1', k2', k3'⟩ := key l' c' h' hnd'
  have hmem : ∀ (p : Analysis → Prop), (∀ t ∈ l, p t) ↔ ∀ t ∈ l', p t := by
    intro p
    constructor
    · intro hh t ht
      exact hh t (hp.mem_iff.mpr ht)
    · intro hh t ht
      exact hh t (hp.mem_iff.mp ht)
  refine ⟨k1, k2, k3, ?_, ?_, ?_, ?_⟩
  · intro v m
    rw [k1, k1', hmem]
  · apply Option.ext
    intro x
    show c.object_count_change = some x ↔ c'.object_count_change = some x
    rw [k2, k2', hmem]
  · apply Option.ext
    intro x
    show c.global_transform = some x ↔ c'.global_transform = some x
    rw [k3, k3', hmem]
  · show some (consistentOf a []) = _
    rw [consistentOf_single]

/-- Witness for the C2 amended theorem at a concrete singleton list. -/
theorem find_consistent_componentwise_witness :
    (∀ v m, (consistentOf analysisA []).value_mappings.lookup v = some m ↔
      ∀ t ∈ [analysisA], t.value_mappings.lookup v = some m) ∧
    (∀ x, (consistentOf analysisA []).object_count_change = some x ↔
      ∀ t ∈ [analysisA], t.object_transforms.object_count_change = x) ∧
    (∀ x, (consistentOf analysisA []).global_transform = some x ↔
      ∀ t ∈ [analysisA], t.spatial_transforms.global_transform = x) ∧
    (∀ v m, (consistentOf analysisA []).value_mappings.lookup v = some m ↔
      (consistentOf analysisA []).value_mappings.lookup v = some m) ∧
    (consistentOf analysisA []).object_count_change =
      (consistentOf analysisA []).object_count_change ∧
    (consistentOf analysisA []).global_transform =
      (consistentOf analysisA []).global_transform ∧
    find_consistent_transforms [analysisA] =
      some { value_mappings := analysisA.value_mappings
             object_count_change := some analysisA.object_transforms.object_count_change
             mappings := analysisA.object_transforms.object_mappings.filterMap fun mp =>
               match mp.matches' with
               | [m] =>
                 if m.transform ≠ OT.complex then
                   some (mp.input_object.value, m.transform)
                 else none
               | _ => none
             global_transform := some analysisA.spatial_transforms.global_transform
             relative_positions := analysisA.spatial_transforms.relative_positions } :=
  find_consistent_componentwise analysisA [analysisA] [analysisA]
    (consistentOf analysisA []) (consistentOf analysisA []) rfl rfl
    (List.Perm.refl _) (by decide)

/-- An entry emitted by `valueMappingFor` is keyed by the analyzed value. -/
theorem valueMappingFor_key (gin gout : Grid) (a : Int) (q : Int × Mapping)
    (h : valueMappingFor gin gout a = some q) : q.1 = a := by
  simp only [valueMappingFor] at h
  split at h
  · cases h
  · split at h
    · cases h
    · rw [← Option.some.inj h]
    · split at h
      · rw [← Option.some.inj h]
      · rw [← Option.some.inj h]

/-- A conditional-table entry exists exactly for a single-valued category. -/
theorem condEntry_ne_none (l : List Int) : condEntry l ≠ none ↔ singleValued l := by
  unfold condEntry singleValued
  rcases hd : l.dedup with _ | ⟨x, _ | ⟨y, t⟩⟩ <;> simp

/-- The conditional table is non-empty exactly when some occurring category
is single-valued. -/
theorem condOf_ne_empty (pb : PosVals) : condOf pb ≠ emptyCT ↔
    singleValued pb.corner ∨ singleValued pb.edge ∨ singleValued pb.interior := by
  rw [← condEntry_ne_none, ← condEntry_ne_none, ← condEntry_ne_none]
  unfold condOf emptyCT
  constructor
  · intro h
    by_contra hc
    push_neg at hc
    exact h (by rw [hc.1, hc.2.1, hc.2.2])
  · intro h hc
    rw [CondTable.mk.injEq] at hc
    rcases h with h | h | h
    · exact h hc.1
    · exact h hc.2.1
    · exact h hc.2.2

/-- C4 counterexample: for the pair `[[1,1,0],[1,0,0],[0,0,0]]` to
`[[5,6,0],[7,0,0],[0,0,0]]`, the edge category of input value 1 maps to two
distinct output values, yet the analyzer classifies the mapping as
`conditional` (with the partial table `{corner: 5}`) rather than `complex`
as the claim requires. -/
theorem value_mapping_conditional_partial_table :
    (analyze_value_mappings [[1,1,0],[1,0,0],[0,0,0]]
        [[5,6,0],[7,0,0],[0,0,0]]).lookup 1 =
      some (Mapping.conditional ⟨some 5, none, none⟩) ∧
    (positionBased [[1,1,0],[1,0,0],[0,0,0]] [[5,6,0],[7,0,0],[0,0,0]] 1).edge =
      [6, 7] := by
  decide

/-- C4 amended: for a value with more than one distinct output value, the
mapping is `conditional` (with the table keeping only the single-valued
categories) exactly when at least one occurring position category is
single-valued, and `complex` (retaining the raw per-position values)
exactly when every occurring category maps to more than one value. -/
theorem value_mapping_conditional_iff (gin gout : Grid) (v : Int) (m : Mapping)
    (hm : (v, m) ∈ analyze_value_mappings gin gout)
    (hmulti : 2 ≤ (uniqueSorted (outValsOf gin gout v)).length) :
    (m = Mapping.conditional (condOf (positionBased gin gout v)) ↔
      (singleValued (positionBased gin gout v).corner ∨
       singleValued (positionBased gin gout v).edge ∨
       singleValued (positionBased gin gout v).interior)) ∧
    (m = Mapping.complex (positionBased gin gout v) ↔
      ¬ (singleValued (positionBased gin gout v).corner ∨
         singleValued (positionBased gin gout v).edge ∨
         singleValued (positionBased gin gout v).interior)) := by
  obtain ⟨a, ha, heq⟩ := List.mem_filterMap.mp hm
  have hk : a = v := (valueMappingFor_key gin gout a (v, m) heq).symm
  subst hk
  simp only [valueMappingFor] at heq
  split at heq
  · cases heq
  · rcases hu : uniqueSorted (outValsOf gin gout a) with _ | ⟨u, _ | ⟨w, t⟩⟩ <;>
      rw [hu] at heq hmulti
    · cases heq
    · simp at hmulti
    · simp only [] at heq
      split at heq
      · rename_i hct
        obtain ⟨rfl⟩ : m = Mapping.conditional (condOf (positionBased gin gout a)) := by
          have := Option.some.inj heq
          simpa using this.symm
        refine ⟨⟨fun _ => (condOf_ne_empty _).mp hct, fun _ => rfl⟩, ?_⟩
        constructor
        · intro hc; cases hc
        · intro hc; exact absurd ((condOf_ne_empty _).mp hct) hc
      · rename_i hct
        rw [not_not] at hct
        obtain ⟨rfl⟩ : m = Mapping.complex (positionBased gin gout a) := by
          have := Option.some.inj heq
          simpa using this.symm
        have hnd : ¬ (singleValued (positionBased gin gout a).corner ∨
            singleValued (positionBased gin gout a).edge ∨
            singleValued (positionBased gin gout a).interior) := by
          intro hd
          exact absurd hct (by rw [← condOf_ne_empty] at hd; exact hd)
        refine ⟨?_, ⟨fun _ => hnd, fun _ => rfl⟩⟩
        constructor
        · intro hc; cases hc
        · intro hd; exact absurd hd hnd

/-- Witness for the C4 amended theorem at a pair whose value 1 has a
two-valued corner category (classified `complex`). -/
theorem value_mapping_conditional_iff_witness :
    (Mapping.complex ⟨[2, 3], [], []⟩ =
        Mapping.conditional (condOf (positionBased [[1, 1]] [[2, 3]] 1)) ↔
      (singleValued (positionBased [[1, 1]] [[2, 3]] 1).corner ∨
       singleValued (positionBased [[1, 1]] [[2, 3]] 1).edge ∨
       singleValued (positionBased [[1, 1]] [[2, 3]] 1).interior)) ∧
    (Mapping.complex ⟨[2, 3], [], []⟩ =
        Mapping.complex (positionBased [[1, 1]] [[2, 3]] 1) ↔
      ¬ (singleValued (positionBased [[1, 1]] [[2, 3]] 1).corner ∨
         singleValued (positionBased [[1, 1]] [[2, 3]] 1).edge ∨
         singleValued (positionBased [[1, 1]] [[2, 3]] 1).interior)) :=
  value_mapping_conditional_iff [[1, 1]] [[2, 3]] 1 (Mapping.complex ⟨[2, 3], [], []⟩)
    (by decide) (by decide)

/-- C6 amended: on scenario 2 the analyzer reports `rotation 270` (rotations
are checked before flips, and on this pair the 270-degree rotation equals
the vertical flip); the global-transform step moves the test 1 to produce
`[[0,0,0],[0,0,1],[0,0,0]]`, and the full prediction additionally applies
the surviving value mapping `1 -> direct 0`, yielding the all-zero grid —
not the unchanged input. -/
theorem global_transform_scenario2 :
    find_global_transform [[1,0,0],[0,0,0],[0,0,0]] [[0,0,1],[0,0,0],[0,0,0]] =
      GT.rotation 270 ∧
    applyGlobal [[0,1,0],[0,0,0],[0,0,0]] (GT.rotation 270) =
      [[0,0,0],[0,0,1],[0,0,0]] ∧
    predict_output [[0,1,0],[0,0,0],[0,0,0]]
        [[[1,0,0],[0,0,0],[0,0,0]]] [[[0,0,1],[0,0,0],[0,0,0]]] =
      Except.ok [[0,0,0],[0,0,0],[0,0,0]] := by
  decide

end ARC1
